import Mathlib

/-!
Verification of the clustering core of the gradient-market repository.

Shallow embedding of `src/entry/gradient_market/skymask/classify.py` and
`src/marketplace/utils/gradient_market_utils/clustering.py`.

Modelling conventions:
* numpy float arithmetic is modelled by exact fraction arithmetic.  `Frac`
  is an unreduced numerator/denominator pair over ℤ; sums, differences,
  products and quotients are the textbook fraction operations, and the
  comparisons used by the code (`==`, `<`, `<=` on floats) are the
  cross-multiplied integer comparisons.  The bridge lemmas `Frac.toRat_add`
  … `Frac.ltb_iff` prove that, whenever denominators are positive, these
  operations agree with the field ℚ, so `Frac` computes exactly the
  rational-number semantics of the python expressions while staying
  reducible inside the kernel.  Every division performed by the embedded
  code divides by a positive integer (a nonempty length or a positive
  constant), which keeps denominators positive.
* Feature matrices are `List (List Frac)` (row-major).
* External library calls (sklearn PCA / GaussianMixture / KMeans, numpy
  log / sqrt / random draws, python's global `random` module) are passed in
  as explicit oracle parameters, since they live outside this repository.
* A python exception escaping a function is modelled as `none` / `.error`;
  a `while` loop that can run forever is modelled with an explicit fuel
  argument, `none` meaning the loop is still running after `fuel` tests
  (so a result of `none` for every fuel models non-termination).
* `np.mean` of an empty slice produces NaN; fractions have no NaN, so the
  centroid-update step returns `none` in exactly that situation.
-/

/-- An unreduced fraction: the exact value `num / den`.  All fractions
built by the embedding have a positive denominator. -/
structure Frac where
  num : ℤ
  den : ℤ
deriving DecidableEq

/-- The integer `n` as a fraction. -/
def Frac.ofInt (n : ℤ) : Frac := ⟨n, 1⟩

/-- The natural number `n` as a fraction. -/
def Frac.ofNat (n : ℕ) : Frac := ⟨(n : ℤ), 1⟩

/-- Fraction addition. -/
def Frac.add (a b : Frac) : Frac := ⟨a.num * b.den + b.num * a.den, a.den * b.den⟩

/-- Fraction subtraction. -/
def Frac.sub (a b : Frac) : Frac := ⟨a.num * b.den - b.num * a.den, a.den * b.den⟩

/-- Fraction multiplication. -/
def Frac.mul (a b : Frac) : Frac := ⟨a.num * b.num, a.den * b.den⟩

/-- Fraction division. -/
def Frac.div (a b : Frac) : Frac := ⟨a.num * b.den, a.den * b.num⟩

/-- Value equality test (float `==`): cross-multiplied integer equality. -/
def Frac.eqb (a b : Frac) : Bool := a.num * b.den == b.num * a.den

/-- Value order test (float `<`): cross-multiplied integer comparison. -/
def Frac.ltb (a b : Frac) : Bool := decide (a.num * b.den < b.num * a.den)

/-- Value order test (float `<=`): cross-multiplied integer comparison. -/
def Frac.leb (a b : Frac) : Bool := decide (a.num * b.den ≤ b.num * a.den)

/-- Sum of a list of fractions (`np.sum`). -/
def Frac.lsum (l : List Frac) : Frac := l.foldr Frac.add (Frac.ofInt 0)

/-- The exact rational value of a fraction. -/
def Frac.toRat (a : Frac) : ℚ := (a.num : ℚ) / (a.den : ℚ)

namespace Classify

/-- Squared coordinate-wise distance between two rows,
`np.power(a - b, 2).sum(axis=1)` for one row pair. -/
def sqDist (u v : List Frac) : Frac :=
  Frac.lsum (List.zipWith (fun a b => Frac.mul (Frac.sub a b) (Frac.sub a b)) u v)

/-- `euclidean_distance(one_sample, X)`: squared euclidean distance from
`one_sample` to every row of `X`. -/
def euclidean_distance (one_sample : List Frac) (X : List (List Frac)) : List Frac :=
  X.map (fun row => sqDist one_sample row)

/-- Helper for `np.argmin`: scan with the best index and value so far;
a strictly smaller value is required to replace the current best, so the
first minimum wins, exactly as in numpy. -/
def argminAux : List Frac → ℕ → ℕ → Frac → ℕ
  | [], _, best, _ => best
  | d :: ds, i, best, bestv =>
    if Frac.ltb d bestv then argminAux ds (i + 1) i d
    else argminAux ds (i + 1) best bestv

/-- `np.argmin` on a list of fractions (first index of the minimum). -/
def npArgmin : List Frac → ℕ
  | [] => 0
  | d :: ds => argminAux ds 1 0 d

/-- `Kmeans._closest_centroid`: index of the nearest centroid by squared
euclidean distance, ties to the lower index. -/
def closest_centroid (sample : List Frac) (centroids : List (List Frac)) : ℕ :=
  npArgmin (euclidean_distance sample centroids)

/-- `Kmeans.create_clusters` with `self.k = 2` (the only value used by
`Classify_kmeans`): sample indices are appended, in order, to the cluster
of their closest centroid. -/
def create_clusters (centroids : List (List Frac)) (X : List (List Frac)) : List (List ℕ) :=
  (List.range 2).map (fun c =>
    (List.range X.length).filter (fun i => closest_centroid (X.getD i []) centroids == c))

/-- Mean of the rows selected by `cluster` (`np.mean(X[cluster], axis=0)`).
For an empty cluster numpy produces a row of NaNs; we return `none`. -/
def clusterMean (X : List (List Frac)) (cluster : List ℕ) : Option (List Frac) :=
  match cluster with
  | [] => none
  | _ :: _ =>
    let rows := cluster.map (fun i => X.getD i [])
    let d := (X.headD []).length
    some ((List.range d).map (fun j =>
      Frac.div (Frac.lsum (rows.map (fun r => r.getD j (Frac.ofInt 0))))
        (Frac.ofNat cluster.length)))

/-- `Kmeans.update_centroids`: every centroid becomes the mean of its
assigned rows.  The previous centroids are not an input of the python
method, so an empty cluster cannot keep its old value: it yields NaN,
modelled by `none` for the whole update. -/
def update_centroids (clusters : List (List ℕ)) (X : List (List Frac)) :
    Option (List (List Frac)) :=
  List.mapM (clusterMean X) clusters

/-- Squared L2 norm of a centroid.  The python code compares
`np.sqrt(np.sum(np.square(centroid)))` values; the square root is strictly
monotone on nonnegative reals, so every comparison and equality test of
those norms coincides with the same test on the squared norms, which stay
inside the fractions. -/
def centroidNormSq (c : List Frac) : Frac :=
  Frac.lsum (c.map (fun x => Frac.mul x x))

/-- Insertion into an ascending list (helper for `list.sort()`). -/
def insertAsc (x : Frac) : List Frac → List Frac
  | [] => [x]
  | y :: ys => if Frac.leb x y then x :: y :: ys else y :: insertAsc x ys

/-- `copy.sort()`: ascending sort of the norm list. -/
def sortAsc (l : List Frac) : List Frac :=
  l.foldr insertAsc []

/-- The inner double loop of `get_cluster_labels_new` computing `idx[j]`:
`idx[j]` starts at 0 and is overwritten by every `i` with
`dist_list[j] == copy[i]`, so the last matching position wins. -/
def lastMatchIdx (v : Frac) (sorted : List Frac) : ℕ :=
  (List.range sorted.length).foldl
    (fun acc i => if Frac.eqb v (sorted.getD i (Frac.ofInt 0)) then i else acc) 0

/-- The canonical-id array `idx` of `Kmeans.get_cluster_labels_new`:
position `j` holds the last index of `dist_list[j]` inside the ascending
sort of the centroid norms. -/
def canonicalIds (centroids : List (List Frac)) : List ℕ :=
  let dist_list := centroids.map centroidNormSq
  let sorted := sortAsc dist_list
  dist_list.map (fun dj => lastMatchIdx dj sorted)

/-- `Kmeans.get_cluster_labels_new`: `y_pred` starts as zeros and sample
`s` is overwritten with `idx[cluster_i]` for every cluster containing it,
in cluster order. -/
def get_cluster_labels_new (centroids : List (List Frac)) (clusters : List (List ℕ))
    (X : List (List Frac)) : List ℕ :=
  let idx := canonicalIds centroids
  (List.range X.length).map (fun s =>
    (List.range clusters.length).foldl
      (fun acc ci => if s ∈ clusters.getD ci [] then idx.getD ci 0 else acc) 0)

/-- Entrywise difference of two centroid matrices (`centroids - former_centroids`). -/
def matSub (A B : List (List Frac)) : List (List Frac) :=
  List.zipWith (fun r1 r2 => List.zipWith Frac.sub r1 r2) A B

/-- Truthiness test of `diff.any()`: true iff some entry is nonzero. -/
def npAny (A : List (List Frac)) : Bool :=
  A.any (fun r => r.any (fun x => !(Frac.eqb x (Frac.ofInt 0))))

/-- The loop-exit test `diff.any() < self.varepsilon` of `Kmeans.predict`:
the numpy boolean is promoted to the number 1 or 0 before the float
comparison. -/
def codeBreakCond (diff : List (List Frac)) (varepsilon : Frac) : Bool :=
  Frac.ltb (if npAny diff then Frac.ofInt 1 else Frac.ofInt 0) varepsilon

/-- The refinement `for` loop of `Kmeans.predict`, with the iteration
budget as fuel.  Each pass assigns clusters from the current centroids,
recomputes the centroids and exits on the break test; when the budget is
exhausted the state of the last pass is kept.  `none` models a NaN
centroid (empty cluster) or a zero iteration budget (in python the later
use of the unbound local `clusters` would then raise). -/
def kmeansIter (X : List (List Frac)) (varepsilon : Frac) :
    ℕ → List (List Frac) → Option (List (List Frac) × List (List ℕ))
  | 0, _ => none
  | fuel + 1, centroids =>
    let clusters := create_clusters centroids X
    match update_centroids clusters X with
    | none => none
    | some newCentroids =>
      if codeBreakCond (matSub newCentroids centroids) varepsilon then
        some (newCentroids, clusters)
      else if fuel = 0 then some (newCentroids, clusters)
      else kmeansIter X varepsilon fuel newCentroids

/-- The redraw loop of `Kmeans.init_random_centroids`: `props` is the
stream of index pairs produced by successive `random.sample(range(n), 2)`
calls, consumed from position `s` until the two indexed rows differ under
the float equality of `all(X[idx[0]] == X[idx[1]])`; the fuel bounds how
many draws we are willing to inspect, `none` for every fuel meaning the
`while` loop never terminates. -/
def drawDistinct (X : List (List Frac)) (props : ℕ → ℕ × ℕ) : ℕ → ℕ → Option (ℕ × ℕ)
  | _, 0 => none
  | s, fuel + 1 =>
    if (List.zipWith Frac.eqb (X.getD (props s).1 []) (X.getD (props s).2 [])).all
        (fun b => b) then
      drawDistinct X props (s + 1) fuel
    else some (props s)

/-- `Kmeans.init_random_centroids` for `k = 2`: `random.sample(range(n), 2)`
raises `ValueError` when `n < 2` (modelled by `none`); otherwise index
pairs are drawn until the two rows differ and the two rows become the
initial centroids. -/
def init_random_centroids (ifuel : ℕ) (props : ℕ → ℕ × ℕ) (X : List (List Frac)) :
    Option (List (List Frac)) :=
  if X.length < 2 then none
  else
    match drawDistinct X props 0 ifuel with
    | none => none
    | some p => some [X.getD p.1 [], X.getD p.2 []]

/-- One attempt of `Kmeans.predict`: a fresh initialization from the
attempt's draw stream followed by the refinement loop. -/
def runAttempt (maxIter ifuel : ℕ) (varepsilon : Frac) (props : ℕ → ℕ → ℕ × ℕ)
    (X : List (List Frac)) (t : ℕ) : Option (List (List Frac) × List (List ℕ)) :=
  match init_random_centroids ifuel (props t) X with
  | none => none
  | some c0 => kmeansIter X varepsilon maxIter c0

/-- The acceptance test of `Kmeans.predict`:
`abs(len(clusters[0]) - len(clusters[1])) < 4`. -/
def goodBalance (clusters : List (List ℕ)) : Bool :=
  decide ((((clusters.getD 0 []).length : ℤ) - ((clusters.getD 1 []).length : ℤ)).natAbs < 4)

/-- The restart `while` loop of `Kmeans.predict`, starting at attempt `t`
with `rem` attempts remaining: an attempt whose clusters pass the balance
test is accepted; otherwise a fresh attempt is made, and the last attempt
is kept when the budget runs out.  With `rem = 0` the loop body never ran
and python would raise on the unbound locals, hence `none`. -/
def predictFrom (maxIter ifuel : ℕ) (varepsilon : Frac) (props : ℕ → ℕ → ℕ × ℕ)
    (X : List (List Frac)) : ℕ → ℕ → Option (List (List Frac) × List (List ℕ))
  | _, 0 => none
  | t, rem + 1 =>
    match runAttempt maxIter ifuel varepsilon props X t with
    | none => none
    | some st =>
      if goodBalance st.2 then some st
      else if rem = 0 then some st
      else predictFrom maxIter ifuel varepsilon props X (t + 1) rem

/-- `Kmeans.predict`: run the restart loop and label the rows from the
final centroids and clusters. -/
def predict (maxIter ifuel resetTimes : ℕ) (varepsilon : Frac) (props : ℕ → ℕ → ℕ × ℕ)
    (X : List (List Frac)) : Option (List ℕ) :=
  (predictFrom maxIter ifuel varepsilon props X 0 resetTimes).map
    (fun st => get_cluster_labels_new st.1 st.2 X)

/-- The majority flip at the end of `Classify_kmeans`: `benign` counts the
labels equal to 1, `mali` all the others, and when `benign < mali` every
label is replaced by `(label + 1) % 2`. -/
def flipPost (y : List ℕ) : List ℕ :=
  let benign := (y.filter (fun f => f == 1)).length
  let mali := (y.filter (fun f => !(f == 1))).length
  if benign < mali then y.map (fun l => (l + 1) % 2) else y

/-- The default `varepsilon = 1e-5` of `Kmeans.__init__`. -/
def varepsilonDefault : Frac := ⟨1, 100000⟩

/-- `Classify_kmeans`: sklearn `PCA(n_components=2).fit_transform` is the
oracle `pcaO` (`none` = the library call raised), then `Kmeans(k=2)` with
its default parameters (`max_iterations = 2000`, `varepsilon = 1e-5`,
`resetTimes = 10`) predicts on the reduced matrix, and the majority flip
is applied. -/
def Classify_kmeans (pcaO : List (List Frac) → Option (List (List Frac)))
    (ifuel : ℕ) (props : ℕ → ℕ → ℕ × ℕ) (X : List (List Frac)) : Option (List ℕ) :=
  match pcaO X with
  | none => none
  | some newX => (predict 2000 ifuel 10 varepsilonDefault props newX).map flipPost

/-- The majority flip at the end of `GMM2`: `benign = np.sum(y_pred == 1)`,
`mali = np.sum(y_pred == 0)`, and when `mali > benign` the labels become
`1 - y_pred`. -/
def flipPostGMM (y : List ℕ) : List ℕ :=
  if y.count 0 > y.count 1 then y.map (fun l => 1 - l) else y

/-- The body of the `try` block of `GMM2` for inputs that form a proper
2-D matrix (a python list of scalar entries, numpy `ndim == 1`, is not
representable as `List (List Frac)` and is not exercised by any claim).
`pcaF` and `gmmFit` are the sklearn oracles; `.error` models a raised
exception. -/
def gmm2_body (pcaF : List (List Frac) → Except Unit (List (List Frac)))
    (gmmFit : ℕ → List (List Frac) → Except Unit (List ℕ))
    (mask : List (List Frac)) : Except Unit (List ℕ) :=
  let n := mask.length
  let step : Except Unit (List (List Frac) × ℕ) :=
    if (mask.headD []).length < 2 then Except.ok (mask, min 2 n)
    else
      match pcaF mask with
      | Except.ok nx => Except.ok (nx, 2)
      | Except.error e => Except.error e
  match step with
  | Except.error e => Except.error e
  | Except.ok (newX, nc0) =>
    let nComp := min nc0 newX.length
    if nComp < 1 then Except.ok (List.replicate n 0)
    else
      match gmmFit nComp newX with
      | Except.error e => Except.error e
      | Except.ok y =>
        if nComp = 1 then Except.ok (List.replicate n 1)
        else Except.ok (flipPostGMM y)

/-- `GMM2`: the `len < 2` guard, then the `try` block, any caught
exception degrading to the all-zero (all-malicious) labelling. -/
def GMM2 (pcaF : List (List Frac) → Except Unit (List (List Frac)))
    (gmmFit : ℕ → List (List Frac) → Except Unit (List ℕ))
    (mask : List (List Frac)) : List ℕ :=
  if mask.length < 2 then List.replicate mask.length 0
  else
    match gmm2_body pcaF gmmFit mask with
    | Except.ok y => y
    | Except.error _ => List.replicate mask.length 0

end Classify

namespace Clustering

/-- `np.mean` of a 1-D array. -/
def npMean (l : List Frac) : Frac :=
  Frac.div (Frac.lsum l) (Frac.ofNat l.length)

/-- The population variance used by `np.std` (the standard deviation is
its square root, taken through the `sqrtO` oracle at the use site). -/
def npVar (l : List Frac) : Frac :=
  npMean (l.map (fun x => Frac.mul (Frac.sub x (npMean l)) (Frac.sub x (npMean l))))

/-- The `epsilon = 1e-10` of `optimal_k_gap`. -/
def gapEps : Frac := ⟨1, 10000000000⟩

/-- Column-wise mean of a set of rows (`np.mean(cluster_data, axis=0)`). -/
def rowsMean (rows : List (List Frac)) : List Frac :=
  (List.range (rows.headD []).length).map (fun j =>
    Frac.div (Frac.lsum (rows.map (fun r => r.getD j (Frac.ofInt 0))))
      (Frac.ofNat rows.length))

/-- `compute_dispersion(data, k)`: total within-cluster squared distance
to the cluster centers of the sklearn `KMeans` fit (the fit itself is the
oracle `km`, giving each row its cluster label), floored at `epsilon`. -/
def compute_dispersion (km : ℕ → List (List Frac) → List ℕ)
    (data : List (List Frac)) (k : ℕ) : Frac :=
  let labels := km k data
  let disp := Frac.lsum ((List.range k).map (fun j =>
    let cd := ((List.range data.length).filter (fun i => labels.getD i 0 == j)).map
      (fun i => data.getD i [])
    if 0 < cd.length then Frac.lsum (cd.map (fun r => Classify.sqDist r (rowsMean cd)))
    else Frac.ofInt 0))
  if Frac.ltb disp gapEps then gapEps else disp

/-- `ks = np.arange(1, k_max + 1)`. -/
def ksList (k_max : ℕ) : List ℕ :=
  (List.range k_max).map (fun i => i + 1)

/-- `Wks`: the real-data dispersion for each candidate `k`. -/
def WksList (km : ℕ → List (List Frac) → List ℕ) (X : List (List Frac))
    (k_max : ℕ) : List Frac :=
  (ksList k_max).map (fun k => compute_dispersion km X k)

/-- `Wkbs`: row `i` holds the dispersions of the `B` reference datasets
(the uniform bounding-box draws, supplied by the oracle `refs`) at
candidate `ks[i]`. -/
def WkbsTable (km : ℕ → List (List Frac) → List ℕ) (refs : ℕ → List (List Frac))
    (k_max B : ℕ) : List (List Frac) :=
  (ksList k_max).map (fun k => (List.range B).map (fun b => compute_dispersion km (refs b) k))

/-- `logWks = np.log(Wks + epsilon)`; `logO` is the `np.log` oracle. -/
def logWksList (logO : Frac → Frac) (km : ℕ → List (List Frac) → List ℕ)
    (X : List (List Frac)) (k_max : ℕ) : List Frac :=
  (WksList km X k_max).map (fun w => logO (Frac.add w gapEps))

/-- `logWkbs = np.log(Wkbs + epsilon)`. -/
def logWkbsTable (logO : Frac → Frac) (km : ℕ → List (List Frac) → List ℕ)
    (refs : ℕ → List (List Frac)) (k_max B : ℕ) : List (List Frac) :=
  (WkbsTable km refs k_max B).map (fun row => row.map (fun w => logO (Frac.add w gapEps)))

/-- `gap = np.mean(logWkbs, axis=1) - logWks`. -/
def gapList (logO : Frac → Frac) (km : ℕ → List (List Frac) → List ℕ)
    (refs : ℕ → List (List Frac)) (X : List (List Frac)) (k_max B : ℕ) : List Frac :=
  List.zipWith (fun row lw => Frac.sub (npMean row) lw)
    (logWkbsTable logO km refs k_max B) (logWksList logO km X k_max)

/-- `sdk = np.std(logWkbs, axis=1) * np.sqrt(1 + 1.0 / B)`; `sqrtO` is the
`np.sqrt` oracle. -/
def sdkList (logO sqrtO : Frac → Frac) (km : ℕ → List (List Frac) → List ℕ)
    (refs : ℕ → List (List Frac)) (k_max B : ℕ) : List Frac :=
  (logWkbsTable logO km refs k_max B).map (fun row =>
    Frac.mul (sqrtO (npVar row))
      (sqrtO (Frac.add (Frac.ofInt 1) (Frac.div (Frac.ofInt 1) (Frac.ofNat B)))))

/-- The selection loop of `optimal_k_gap`: `optimal_k` starts at `ks[-1]`
and the loop over `i in range(len(ks) - 1)` breaks at the first `i` with
`gap[i] >= gap[i + 1] - sdk[i + 1]`. -/
def gapSelect (ks : List ℕ) (gap sdk : List Frac) : ℕ :=
  match (List.range (ks.length - 1)).find? (fun i =>
      Frac.leb
        (Frac.sub (gap.getD (i + 1) (Frac.ofInt 0)) (sdk.getD (i + 1) (Frac.ofInt 0)))
        (gap.getD i (Frac.ofInt 0))) with
  | some i => ks.getD i 0
  | none => ks.getD (ks.length - 1) 0

/-- `optimal_k_gap(X, k_max, B, random_state)`.  The sklearn `KMeans`
fits, the numpy reference draws (which consume the seeded global numpy
state) and `np.log` / `np.sqrt` are the oracles `km`, `refs`, `logO`,
`sqrtO`. -/
def optimal_k_gap (logO sqrtO : Frac → Frac) (km : ℕ → List (List Frac) → List ℕ)
    (refs : ℕ → List (List Frac)) (X : List (List Frac)) (k_max B : ℕ) : ℕ :=
  gapSelect (ksList k_max) (gapList logO km refs X k_max B) (sdkList logO sqrtO km refs k_max B)

/-- The log-dispersion row of candidate `k` over the `B` reference
datasets (the entries of `logWkbs` at that candidate). -/
def logRow (logO : Frac → Frac) (km : ℕ → List (List Frac) → List ℕ)
    (refs : ℕ → List (List Frac)) (B k : ℕ) : List Frac :=
  (List.range B).map (fun b => logO (Frac.add (compute_dispersion km (refs b) k) gapEps))

/-- The claim's `gap(k)`: mean of the logs of the `B` reference
dispersions at `k` minus the log of the real-data dispersion at `k`. -/
def gapAt (logO : Frac → Frac) (km : ℕ → List (List Frac) → List ℕ)
    (refs : ℕ → List (List Frac)) (X : List (List Frac)) (B k : ℕ) : Frac :=
  Frac.sub (npMean (logRow logO km refs B k))
    (logO (Frac.add (compute_dispersion km X k) gapEps))

/-- The claim's `s_k`: standard deviation of the log reference dispersions
at `k`, scaled by `sqrt(1 + 1/B)`. -/
def sdkAt (logO sqrtO : Frac → Frac) (km : ℕ → List (List Frac) → List ℕ)
    (refs : ℕ → List (List Frac)) (B k : ℕ) : Frac :=
  Frac.mul (sqrtO (npVar (logRow logO km refs B k)))
    (sqrtO (Frac.add (Frac.ofInt 1) (Frac.div (Frac.ofInt 1) (Frac.ofNat B))))

/-- The claim's selection condition at candidate `k`:
`gap(k) ≥ gap(k+1) − s_{k+1}` (as the float comparison the code runs). -/
def gapCondb (logO sqrtO : Frac → Frac) (km : ℕ → List (List Frac) → List ℕ)
    (refs : ℕ → List (List Frac)) (X : List (List Frac)) (B k : ℕ) : Bool :=
  Frac.leb (Frac.sub (gapAt logO km refs X B (k + 1)) (sdkAt logO sqrtO km refs B (k + 1)))
    (gapAt logO km refs X B k)

end Clustering

namespace Classify

/-- The convergence criterion stated by the specification: the maximum
per-centroid displacement norm is below `e`.  Norms are nonnegative, so
`max‖row‖ < e` is `∀ row, ‖row‖ < e`, and by monotonicity of the square
root this is `∀ row, ‖row‖² < e²`. -/
def maxDispNormLt (diff : List (List Frac)) (e : Frac) : Prop :=
  ∀ r ∈ diff, Frac.ltb (centroidNormSq r) (Frac.mul e e) = true

/-- The specification's label flip: 0 and 1 exchanged. -/
def swap01 (l : ℕ) : ℕ :=
  if l = 0 then 1 else 0

/-- Lift of the balance test to an attempt result (`false` for a crashed
attempt). -/
def goodOpt : Option (List (List Frac) × List (List ℕ)) → Bool
  | none => false
  | some st => goodBalance st.2

/-- Concrete 3-point data set used by witnesses: the k-means outcome
depends on which rows the ambient random stream picks as initial
centroids. -/
def wX : List (List Frac) :=
  [[Frac.ofInt 0, Frac.ofInt 0], [Frac.ofInt 10, Frac.ofInt 0], [Frac.ofInt 0, Frac.ofInt 10]]

/-- One ambient random stream: every `random.sample` call returns rows 0, 1. -/
def wPropsA : ℕ → ℕ → ℕ × ℕ := fun _ _ => (0, 1)

/-- Another ambient random stream: every `random.sample` call returns rows 1, 2. -/
def wPropsB : ℕ → ℕ → ℕ × ℕ := fun _ _ => (1, 2)

/-- PCA oracle used by witnesses: the identity projection (row-preserving,
as `fit_transform` is). -/
def pcaIdentity : List (List Frac) → Option (List (List Frac)) := fun m => some m

/-- A PCA oracle whose output has one row (used to exercise the resolved
single-component branch of `GMM2`). -/
def wPcaOne : List (List Frac) → Except Unit (List (List Frac)) :=
  fun _ => Except.ok [[Frac.ofInt 0, Frac.ofInt 0]]

/-- A PCA oracle whose output has two rows. -/
def wPcaTwo : List (List Frac) → Except Unit (List (List Frac)) :=
  fun _ => Except.ok [[Frac.ofInt 0], [Frac.ofInt 1]]

/-- A mixture-fit oracle that succeeds with labels `[0]`. -/
def wFitOk : ℕ → List (List Frac) → Except Unit (List ℕ) := fun _ _ => Except.ok [0]

/-- A mixture-fit oracle that raises (singular covariance, say). -/
def wFitErr : ℕ → List (List Frac) → Except Unit (List ℕ) := fun _ _ => Except.error ()

/-- A two-row mask used by the `GMM2` witnesses. -/
def wMask : List (List Frac) :=
  [[Frac.ofInt 1, Frac.ofInt 2], [Frac.ofInt 3, Frac.ofInt 4]]

end Classify

namespace Clustering

/-- Identity oracle standing for `np.log` / `np.sqrt` in witnesses. -/
def idOracle : Frac → Frac := fun x => x

/-- A labelling oracle for witnesses: every row in cluster 0. -/
def wKm : ℕ → List (List Frac) → List ℕ := fun _ d => List.replicate d.length 0

/-- A reference-draw oracle for witnesses. -/
def wRefs : ℕ → List (List Frac) := fun _ => [[Frac.ofInt 0]]

/-- A one-row data set for witnesses. -/
def wData : List (List Frac) := [[Frac.ofInt 0]]

end Clustering

/-! Bridge lemmas: with positive denominators the `Frac` operations agree
with the field ℚ, so the embedding computes the exact rational semantics
of the python float expressions. -/

theorem Frac.toRat_add (a b : Frac) (ha : 0 < a.den) (hb : 0 < b.den) :
    (Frac.add a b).toRat = a.toRat + b.toRat := by
  have ha' : ((a.den : ℚ)) ≠ 0 := by exact_mod_cast ha.ne'
  have hb' : ((b.den : ℚ)) ≠ 0 := by exact_mod_cast hb.ne'
  simp only [Frac.add, Frac.toRat]
  push_cast
  field_simp

theorem Frac.toRat_sub (a b : Frac) (ha : 0 < a.den) (hb : 0 < b.den) :
    (Frac.sub a b).toRat = a.toRat - b.toRat := by
  have ha' : ((a.den : ℚ)) ≠ 0 := by exact_mod_cast ha.ne'
  have hb' : ((b.den : ℚ)) ≠ 0 := by exact_mod_cast hb.ne'
  simp only [Frac.sub, Frac.toRat]
  push_cast
  field_simp
  ring

theorem Frac.toRat_mul (a b : Frac) (ha : 0 < a.den) (hb : 0 < b.den) :
    (Frac.mul a b).toRat = a.toRat * b.toRat := by
  have ha' : ((a.den : ℚ)) ≠ 0 := by exact_mod_cast ha.ne'
  have hb' : ((b.den : ℚ)) ≠ 0 := by exact_mod_cast hb.ne'
  simp only [Frac.mul, Frac.toRat]
  push_cast
  field_simp

theorem Frac.toRat_div (a b : Frac) (ha : 0 < a.den) (hb : 0 < b.den)
    (hbn : b.num ≠ 0) : (Frac.div a b).toRat = a.toRat / b.toRat := by
  have ha' : ((a.den : ℚ)) ≠ 0 := by exact_mod_cast ha.ne'
  have hb' : ((b.den : ℚ)) ≠ 0 := by exact_mod_cast hb.ne'
  have hbn' : ((b.num : ℚ)) ≠ 0 := by exact_mod_cast hbn
  simp only [Frac.div, Frac.toRat]
  push_cast
  field_simp

theorem Frac.eqb_iff (a b : Frac) (ha : 0 < a.den) (hb : 0 < b.den) :
    Frac.eqb a b = true ↔ a.toRat = b.toRat := by
  have ha' : ((a.den : ℚ)) ≠ 0 := by exact_mod_cast ha.ne'
  have hb' : ((b.den : ℚ)) ≠ 0 := by exact_mod_cast hb.ne'
  simp only [Frac.eqb, Frac.toRat, beq_iff_eq, div_eq_div_iff ha' hb']
  constructor
  · intro h; exact_mod_cast congrArg (fun z : ℤ => (z : ℚ)) h
  · intro h; exact_mod_cast h

theorem Frac.ltb_iff (a b : Frac) (ha : 0 < a.den) (hb : 0 < b.den) :
    Frac.ltb a b = true ↔ a.toRat < b.toRat := by
  have ha' : (0 : ℚ) < (a.den : ℚ) := by exact_mod_cast ha
  have hb' : (0 : ℚ) < (b.den : ℚ) := by exact_mod_cast hb
  simp only [Frac.ltb, Frac.toRat, decide_eq_true_eq, div_lt_div_iff₀ ha' hb']
  constructor
  · intro h; exact_mod_cast h
  · intro h; exact_mod_cast h

theorem Frac.leb_iff (a b : Frac) (ha : 0 < a.den) (hb : 0 < b.den) :
    Frac.leb a b = true ↔ a.toRat ≤ b.toRat := by
  have ha' : (0 : ℚ) < (a.den : ℚ) := by exact_mod_cast ha
  have hb' : (0 : ℚ) < (b.den : ℚ) := by exact_mod_cast hb
  simp only [Frac.leb, Frac.toRat, decide_eq_true_eq, div_le_div_iff₀ ha' hb']
  constructor
  · intro h; exact_mod_cast h
  · intro h; exact_mod_cast h

namespace Classify

/-- C2: the claim says `Kmeans.predict` stops the refinement loop early
exactly when the maximum per-centroid displacement norm falls below
`varepsilon`.  In the code the test is `diff.any() < self.varepsilon`,
which compares the *boolean* `diff.any()` (promoted to 1 or 0) with
`varepsilon = 1e-5`, so the loop breaks exactly when every displacement
entry is exactly zero.  At the displacement matrix `[[1e-6, 0], [0, 0]]`
every centroid displacement norm is below `varepsilon` (the specified
criterion holds) yet the code's break test is false. -/
theorem C2_break_test_diverges :
    (codeBreakCond [[⟨1, 1000000⟩, Frac.ofInt 0], [Frac.ofInt 0, Frac.ofInt 0]]
        varepsilonDefault = false ∧
      maxDispNormLt [[⟨1, 1000000⟩, Frac.ofInt 0], [Frac.ofInt 0, Frac.ofInt 0]]
        varepsilonDefault) ∧
    ∀ diff : List (List Frac), codeBreakCond diff varepsilonDefault = !npAny diff := by
  refine ⟨⟨by decide, fun r hr => ?_⟩, ?_⟩
  · fin_cases hr <;> decide
  · intro diff
    cases h : npAny diff <;> simp [codeBreakCond, h] <;> decide

/-- C3: the claim says a centroid with an empty assigned cluster keeps its
previous value and never becomes NaN.  `Kmeans.update_centroids` does not
even receive the previous centroids: it takes `np.mean(X[cluster], axis=0)`
of the empty row slice, which is NaN (modelled by `none`), as the concrete
call with clusters `[[0], []]` on the one-row matrix `[[1, 0]]` shows. -/
theorem C3_empty_cluster_nan :
    update_centroids [[0], []] [[Frac.ofInt 1, Frac.ofInt 0]] = none ∧
    ∀ X : List (List Frac), clusterMean X [] = none := by
  exact ⟨by decide, fun X => rfl⟩

/-- C6: the claim says classification is pure and deterministic given an
explicit seed and that no implicit global random state influences the
result.  `Classify_kmeans` takes no seed and draws its initial centroids
through the global `random` module: with the same input matrix and PCA
behaviour, an ambient stream that first draws rows (0, 1) labels the
points `[1, 0, 1]` while one that first draws rows (1, 2) labels them
`[1, 1, 0]`, so the ambient global state does change the returned labels. -/
theorem C6_global_random_dependence :
    Classify_kmeans pcaIdentity 1 wPropsA wX = some [1, 0, 1] ∧
    Classify_kmeans pcaIdentity 1 wPropsB wX = some [1, 1, 0] ∧
    Classify_kmeans pcaIdentity 1 wPropsA wX ≠ Classify_kmeans pcaIdentity 1 wPropsB wX := by
  refine ⟨by decide, by decide, by decide⟩

/-- C8 counterexample: the claim says the two canonical ids are always a
permutation of the cluster indices.  When the two final centroids have
equal norms (`[3, 4]` and `[5, 0]` both have norm 5), the last-match rule
of `get_cluster_labels_new` maps *both* clusters to canonical id 1, so
both points receive label 1 and no point receives label 0. -/
theorem C8_equal_norm_not_permutation :
    canonicalIds [[Frac.ofInt 3, Frac.ofInt 4], [Frac.ofInt 5, Frac.ofInt 0]] = [1, 1] ∧
    get_cluster_labels_new [[Frac.ofInt 3, Frac.ofInt 4], [Frac.ofInt 5, Frac.ofInt 0]]
      [[0], [1]] [[Frac.ofInt 3, Frac.ofInt 4], [Frac.ofInt 5, Frac.ofInt 0]] = [1, 1] ∧
    Frac.eqb (centroidNormSq [Frac.ofInt 3, Frac.ofInt 4])
      (centroidNormSq [Frac.ofInt 5, Frac.ofInt 0]) = true := by
  refine ⟨by decide, by decide, by decide⟩

end Classify

namespace Classify

theorem eqb_refl (x : Frac) : Frac.eqb x x = true := by
  simp [Frac.eqb]

theorem zipWith_eqb_self (r : List Frac) :
    (List.zipWith Frac.eqb r r).all (fun b => b) = true := by
  induction r with
  | nil => rfl
  | cons x xs ih => simp [List.zipWith, eqb_refl, ih]

theorem predictFrom_none_of_short {X : List (List Frac)} (h : X.length < 2)
    (maxIter ifuel : ℕ) (e : Frac) (props : ℕ → ℕ → ℕ × ℕ) :
    ∀ t rem, predictFrom maxIter ifuel e props X t rem = none := by
  intro t rem
  cases rem with
  | zero => rfl
  | succ rem => simp [predictFrom, runAttempt, init_random_centroids, h]

theorem predict_none_of_short {X : List (List Frac)} (h : X.length < 2)
    (maxIter ifuel rt : ℕ) (e : Frac) (props : ℕ → ℕ → ℕ × ℕ) :
    predict maxIter ifuel rt e props X = none := by
  simp [predict, predictFrom_none_of_short h]

theorem drawDistinct_none_of_allEqual {X : List (List Frac)} {props : ℕ → ℕ × ℕ}
    (hall : ∀ s, (List.zipWith Frac.eqb (X.getD (props s).1 []) (X.getD (props s).2 [])).all
      (fun b => b) = true) :
    ∀ fuel s, drawDistinct X props s fuel = none := by
  intro fuel
  induction fuel with
  | zero => intro s; rfl
  | succ fuel ih =>
    intro s
    simp only [drawDistinct]
    rw [if_pos (hall s)]
    exact ih (s + 1)

/-- C1: the claim says `Classify_kmeans` never raises on an empty,
single-row or degenerate matrix and returns a fallback labelling instead.
The code has no such guard: `random.sample(range(n_samples), 2)` raises
`ValueError` for fewer than two rows, and for a matrix whose rows are all
identical the redraw loop of `init_random_centroids` never terminates
(every pair of rows is numerically identical) — for any PCA behaviour
that preserves the row count and maps equal rows to equal rows, and for
any in-range ambient draws and any redraw budget, no labelling is ever
produced. -/
theorem C1_classify_raises_on_degenerate
    (pcaO : List (List Frac) → Option (List (List Frac)))
    (props : ℕ → ℕ → ℕ × ℕ) (ifuel : ℕ)
    (hrows : ∀ X Y, pcaO X = some Y → Y.length = X.length)
    (hpres : ∀ X Y i j, pcaO X = some Y → i < X.length → j < X.length →
      X.getD i [] = X.getD j [] → Y.getD i [] = Y.getD j [])
    (hprops : ∀ t s, (props t s).1 < 2 ∧ (props t s).2 < 2) :
    Classify_kmeans pcaO ifuel props [] = none ∧
    Classify_kmeans pcaO ifuel props [[Frac.ofInt 1, Frac.ofInt 2]] = none ∧
    Classify_kmeans pcaO ifuel props
      [[Frac.ofInt 1, Frac.ofInt 2], [Frac.ofInt 1, Frac.ofInt 2]] = none := by
  refine ⟨?_, ?_, ?_⟩
  · cases h : pcaO [] with
    | none => simp [Classify_kmeans, h]
    | some Y =>
      have hY : Y.length < 2 := by
        have h2 : Y.length = 0 := hrows _ _ h
        omega
      simp [Classify_kmeans, h, predict_none_of_short hY]
  · cases h : pcaO [[Frac.ofInt 1, Frac.ofInt 2]] with
    | none => simp [Classify_kmeans, h]
    | some Y =>
      have hY : Y.length < 2 := by
        have h2 : Y.length = 1 := hrows _ _ h
        omega
      simp [Classify_kmeans, h, predict_none_of_short hY]
  · cases h : pcaO [[Frac.ofInt 1, Frac.ofInt 2], [Frac.ofInt 1, Frac.ofInt 2]] with
    | none => simp [Classify_kmeans, h]
    | some Y =>
      have hlen : Y.length = 2 := hrows _ _ h
      have hrow : Y.getD 0 [] = Y.getD 1 [] := by
        refine hpres _ _ 0 1 h (by simp) (by simp) ?_
        rfl
      have hidx : ∀ i, i < 2 → Y.getD i [] = Y.getD 0 [] := by
        intro i hi
        interval_cases i
        · rfl
        · exact hrow.symm
      have hinit : ∀ t, init_random_centroids ifuel (props t) Y = none := by
        intro t
        have hdraw : ∀ fuel s, drawDistinct Y (props t) s fuel = none := by
          apply drawDistinct_none_of_allEqual
          intro s
          obtain ⟨h1, h2⟩ := hprops t s
          rw [hidx _ h1, hidx _ h2]
          exact zipWith_eqb_self _
        simp [init_random_centroids, hlen, hdraw]
      have hpred : predict 2000 ifuel 10 varepsilonDefault props Y = none := by
        have hfrom : ∀ t rem, predictFrom 2000 ifuel varepsilonDefault props Y t rem = none := by
          intro t rem
          cases rem with
          | zero => rfl
          | succ rem => simp [predictFrom, runAttempt, hinit t]
        simp [predict, hfrom]
      simp [Classify_kmeans, h, hpred]

/-- Witness for C1 at the identity PCA oracle and the constant draw
stream (0, 1). -/
theorem C1_classify_raises_on_degenerate_witness :
    Classify_kmeans pcaIdentity 0 wPropsA [] = none ∧
    Classify_kmeans pcaIdentity 0 wPropsA [[Frac.ofInt 1, Frac.ofInt 2]] = none ∧
    Classify_kmeans pcaIdentity 0 wPropsA
      [[Frac.ofInt 1, Frac.ofInt 2], [Frac.ofInt 1, Frac.ofInt 2]] = none :=
  C1_classify_raises_on_degenerate pcaIdentity wPropsA 0
    (fun X Y h => by simp [pcaIdentity] at h; rw [h])
    (fun X Y i j h hi hj he => by simp [pcaIdentity] at h; rw [← h]; exact he)
    (fun t s => ⟨Nat.zero_lt_two, Nat.one_lt_two⟩)

end Classify

namespace Classify

theorem filter_eq_one_length (y : List ℕ) :
    (y.filter (fun f => f == 1)).length = y.count 1 := by
  induction y with
  | nil => rfl
  | cons a y ih =>
    by_cases h : a = 1
    · subst h; simp [List.filter_cons, List.count_cons, ih]
    · simp [List.filter_cons, List.count_cons, h, ih]

theorem filter_ne_one_length : ∀ y : List ℕ, (∀ l ∈ y, l = 0 ∨ l = 1) →
    (y.filter (fun f => !(f == 1))).length = y.count 0 := by
  intro y
  induction y with
  | nil => intro _; rfl
  | cons a y ih =>
    intro hbin
    have ih' := ih (fun l hl => hbin l (List.mem_cons_of_mem a hl))
    rcases hbin a (List.mem_cons_self a y) with h | h <;> subst h <;>
      simp [List.filter_cons, List.count_cons, ih']

theorem map_flip_eq_swap (y : List ℕ) (hbin : ∀ l ∈ y, l = 0 ∨ l = 1) :
    y.map (fun l => (l + 1) % 2) = y.map swap01 := by
  apply List.map_congr_left
  intro a ha
  rcases hbin a ha with h | h <;> subst h <;> rfl

theorem map_one_sub_eq_swap (y : List ℕ) (hbin : ∀ l ∈ y, l = 0 ∨ l = 1) :
    y.map (fun l => 1 - l) = y.map swap01 := by
  apply List.map_congr_left
  intro a ha
  rcases hbin a ha with h | h <;> subst h <;> rfl

theorem count_map_swap01 : ∀ y : List ℕ, (∀ l ∈ y, l = 0 ∨ l = 1) →
    (y.map swap01).count 1 = y.count 0 ∧ (y.map swap01).count 0 = y.count 1 := by
  intro y
  induction y with
  | nil => intro _; exact ⟨rfl, rfl⟩
  | cons a y ih =>
    intro hbin
    have ih' := ih (fun l hl => hbin l (List.mem_cons_of_mem a hl))
    rcases hbin a (List.mem_cons_self a y) with h | h <;> subst h <;>
      simp [swap01, List.count_cons, ih'.1, ih'.2]

/-- C4: after a 2-cluster fit both `Classify_kmeans` and `GMM2` flip the
labels exactly when the count of label 1 is strictly smaller than the
count of label 0 (ties leave the labels unchanged); on binary labellings
the flip `(l + 1) % 2` of `Classify_kmeans` and the flip `1 - l` of `GMM2`
both exchange 0 and 1, and after a flip label 1 counts strictly more
members than label 0. -/
theorem C4_majority_flip (y : List ℕ) (hbin : ∀ l ∈ y, l = 0 ∨ l = 1) :
    (flipPost y = if y.count 1 < y.count 0 then y.map swap01 else y) ∧
    (flipPostGMM y = if y.count 1 < y.count 0 then y.map swap01 else y) ∧
    (y.count 1 < y.count 0 →
      (flipPost y).count 0 < (flipPost y).count 1 ∧
      (flipPostGMM y).count 0 < (flipPostGMM y).count 1) ∧
    (y.count 1 = y.count 0 → flipPost y = y ∧ flipPostGMM y = y) := by
  have h1 : flipPost y = if y.count 1 < y.count 0 then y.map swap01 else y := by
    simp only [flipPost]
    rw [filter_eq_one_length, filter_ne_one_length y hbin]
    split_ifs with h
    · exact map_flip_eq_swap y hbin
    · rfl
  have h2 : flipPostGMM y = if y.count 1 < y.count 0 then y.map swap01 else y := by
    simp only [flipPostGMM, gt_iff_lt]
    split_ifs with h
    · exact map_one_sub_eq_swap y hbin
    · rfl
  refine ⟨h1, h2, ?_, ?_⟩
  · intro hlt
    have hc := count_map_swap01 y hbin
    rw [h1, h2, if_pos hlt, hc.1, hc.2]
    exact ⟨hlt, hlt⟩
  · intro heq
    rw [h1, h2, if_neg (by omega)]
    exact ⟨rfl, rfl⟩

/-- Witness for C4 at the labelling `[0, 0, 1]` (one 1 against two 0s:
every label is flipped). -/
theorem C4_majority_flip_witness :
    flipPost [0, 0, 1] = [1, 1, 0] ∧ flipPostGMM [0, 0, 1] = [1, 1, 0] := by
  have h := C4_majority_flip [0, 0, 1] (by decide)
  constructor
  · rw [h.1]; decide
  · rw [h.2.1]; decide

end Classify

namespace Classify

/-- C5: the guard contract of `GMM2`.  (i) With fewer than 2 samples the
result is the all-malicious labelling (all zeros).  (ii) When the resolved
component count `min(n_components, newX.shape[0])` works out to 1 — the
`n_components_gmm == 1` branch — the result is the all-benign labelling
(all ones).  (iii) When the mixture fit raises, the exception is caught
and the result is the all-malicious labelling; nothing propagates. -/
theorem C5_gmm2_guards (pcaF : List (List Frac) → Except Unit (List (List Frac)))
    (gmmFit : ℕ → List (List Frac) → Except Unit (List ℕ)) :
    (∀ mask : List (List Frac), mask.length < 2 →
      GMM2 pcaF gmmFit mask = List.replicate mask.length 0) ∧
    (∀ (mask nx : List (List Frac)) (y : List ℕ), 2 ≤ mask.length →
      2 ≤ (mask.headD []).length → pcaF mask = Except.ok nx → nx.length = 1 →
      gmmFit 1 nx = Except.ok y →
      GMM2 pcaF gmmFit mask = List.replicate mask.length 1) ∧
    (∀ mask nx : List (List Frac), 2 ≤ mask.length →
      2 ≤ (mask.headD []).length → pcaF mask = Except.ok nx → 1 ≤ nx.length →
      gmmFit (min 2 nx.length) nx = Except.error () →
      GMM2 pcaF gmmFit mask = List.replicate mask.length 0) := by
  refine ⟨?_, ?_, ?_⟩
  · intro mask hlen
    simp [GMM2, hlen]
  · intro mask nx y hmask hdim hpca hnx hfit
    have hm : ¬ mask.length < 2 := by omega
    have hd : ¬ (mask.headD []).length < 2 := by omega
    simp only [GMM2, gmm2_body, if_neg hm, if_neg hd, hpca, hnx]
    norm_num
    rw [hfit]
  · intro mask nx hmask hdim hpca hnx hfit
    have hm : ¬ mask.length < 2 := by omega
    have hd : ¬ (mask.headD []).length < 2 := by omega
    have hc : ¬ min 2 nx.length < 1 := by omega
    simp only [GMM2, gmm2_body, if_neg hm, if_neg hd, hpca, if_neg hc, hfit]

/-- Witness for C5: a one-row mask for the insufficient-data guard, a
PCA oracle with a one-row image for the single-component branch, and a
failing fit for the caught numerical failure. -/
theorem C5_gmm2_guards_witness :
    GMM2 wPcaOne wFitOk [[Frac.ofInt 5]] = [0] ∧
    GMM2 wPcaOne wFitOk wMask = [1, 1] ∧
    GMM2 wPcaTwo wFitErr wMask = [0, 0] := by
  refine ⟨?_, ?_, ?_⟩
  · have h := (C5_gmm2_guards wPcaOne wFitOk).1 [[Frac.ofInt 5]] (by decide)
    simpa using h
  · have h := (C5_gmm2_guards wPcaOne wFitOk).2.1 wMask [[Frac.ofInt 0, Frac.ofInt 0]] [0]
      (by decide) (by decide) rfl rfl rfl
    simpa using h
  · have h := (C5_gmm2_guards wPcaTwo wFitErr).2.2 wMask [[Frac.ofInt 0], [Frac.ofInt 1]]
      (by decide) (by decide) rfl (by decide) rfl
    simpa using h

end Classify

namespace Classify

theorem lastMatchIdx_pair (v x y : Frac) :
    lastMatchIdx v [x, y] =
      if Frac.eqb v y then 1 else if Frac.eqb v x then 0 else 0 := rfl

theorem sortAsc_pair (a b : Frac) :
    sortAsc [a, b] = if Frac.leb a b then [a, b] else [b, a] := rfl

theorem canonicalIds_pair (c0 c1 : List Frac) :
    canonicalIds [c0, c1] =
      [lastMatchIdx (centroidNormSq c0) (sortAsc [centroidNormSq c0, centroidNormSq c1]),
       lastMatchIdx (centroidNormSq c1) (sortAsc [centroidNormSq c0, centroidNormSq c1])] := rfl

theorem eqb_false_symm {a b : Frac} (h : Frac.eqb a b = false) : Frac.eqb b a = false := by
  simp only [Frac.eqb, beq_eq_false_iff_ne, ne_eq] at h ⊢
  exact fun e => h e.symm

theorem leb_of_ltb {a b : Frac} (h : Frac.ltb a b = true) : Frac.leb a b = true := by
  simp only [Frac.ltb, decide_eq_true_eq] at h
  simp only [Frac.leb, decide_eq_true_eq]
  omega

theorem leb_false_of_not_lt_ne {a b : Frac} (hlt : Frac.ltb a b = false)
    (hne : Frac.eqb a b = false) : Frac.leb a b = false := by
  simp only [Frac.ltb, decide_eq_false_iff_not, not_lt] at hlt
  simp only [Frac.eqb, beq_eq_false_iff_ne, ne_eq] at hne
  simp only [Frac.leb, decide_eq_false_iff_not, not_le]
  omega

/-- C8 amended: when the two final centroid norms are *distinct*, the
canonical ids order the centroids by norm ascending — id 0 for the
lower-norm centroid's cluster, id 1 for the other — and the two ids are a
permutation of {0, 1}; every sample then receives the canonical id of the
(last) cluster containing it.  (The equal-norm tie gives both clusters
id 1, see the counterexample.) -/
theorem C8_canonical_labeling_distinct_norms (c0 c1 : List Frac)
    (hne : Frac.eqb (centroidNormSq c0) (centroidNormSq c1) = false) :
    (canonicalIds [c0, c1] =
      if Frac.ltb (centroidNormSq c0) (centroidNormSq c1) then [0, 1] else [1, 0]) ∧
    (canonicalIds [c0, c1]).Perm [0, 1] ∧
    ∀ (A B : List ℕ) (X : List (List Frac)),
      get_cluster_labels_new [c0, c1] [A, B] X =
        (List.range X.length).map (fun s =>
          if s ∈ B then (canonicalIds [c0, c1]).getD 1 0
          else if s ∈ A then (canonicalIds [c0, c1]).getD 0 0 else 0) := by
  have hids : canonicalIds [c0, c1] =
      if Frac.ltb (centroidNormSq c0) (centroidNormSq c1) then [0, 1] else [1, 0] := by
    rw [canonicalIds_pair]
    cases hlt : Frac.ltb (centroidNormSq c0) (centroidNormSq c1) with
    | true =>
      have hle := leb_of_ltb hlt
      rw [sortAsc_pair, if_pos hle]
      simp [lastMatchIdx_pair, hne, eqb_refl]
    | false =>
      have hle := leb_false_of_not_lt_ne hlt hne
      rw [sortAsc_pair, if_neg (by simp [hle])]
      simp [lastMatchIdx_pair, eqb_false_symm hne, eqb_refl]
  refine ⟨hids, ?_, fun A B X => rfl⟩
  rw [hids]
  split_ifs
  · decide
  · decide

/-- Witness for C8 at centroids `[1, 0]` and `[3, 0]` (norms 1 < 3). -/
theorem C8_canonical_labeling_distinct_norms_witness :
    canonicalIds [[Frac.ofInt 1, Frac.ofInt 0], [Frac.ofInt 3, Frac.ofInt 0]] = [0, 1] := by
  have h := C8_canonical_labeling_distinct_norms [Frac.ofInt 1, Frac.ofInt 0]
    [Frac.ofInt 3, Frac.ofInt 0] (by decide)
  rw [h.1]
  decide

end Classify

theorem find?_range'_some {p : ℕ → Bool} :
    ∀ n s i, (List.range' s n).find? p = some i →
      p i = true ∧ s ≤ i ∧ i < s + n ∧ ∀ j, s ≤ j → j < i → p j = false := by
  intro n
  induction n with
  | zero => intro s i h; simp [List.range'] at h
  | succ n ih =>
    intro s i h
    rw [List.range'_succ] at h
    by_cases hp : p s = true
    · rw [List.find?_cons_of_pos _ hp] at h
      injection h with h
      subst h
      exact ⟨hp, le_refl _, by omega, fun j h1 h2 => absurd h1 (by omega)⟩
    · have hps : p s = false := by simp only [Bool.not_eq_true] at hp; exact hp
      rw [List.find?_cons_of_neg _ hp] at h
      obtain ⟨hpi, hsi, hin, hmin⟩ := ih (s + 1) i h
      refine ⟨hpi, by omega, by omega, ?_⟩
      intro j h1 h2
      rcases eq_or_lt_of_le h1 with rfl | h1'
      · exact hps
      · exact hmin j (by omega) h2

theorem find?_range'_none {p : ℕ → Bool} :
    ∀ n s, (List.range' s n).find? p = none → ∀ j, s ≤ j → j < s + n → p j = false := by
  intro n
  induction n with
  | zero => intro s h j h1 h2; omega
  | succ n ih =>
    intro s h j h1 h2
    rw [List.range'_succ] at h
    by_cases hp : p s = true
    · rw [List.find?_cons_of_pos _ hp] at h
      exact absurd h (by simp)
    · have hps : p s = false := by simp only [Bool.not_eq_true] at hp; exact hp
      rw [List.find?_cons_of_neg _ hp] at h
      rcases eq_or_lt_of_le h1 with rfl | h1'
      · exact hps
      · exact ih (s + 1) h j (by omega) (by omega)

namespace Classify

theorem predictFrom_characterization (maxIter ifuel : ℕ) (e : Frac)
    (props : ℕ → ℕ → ℕ × ℕ) (X : List (List Frac)) :
    ∀ rem t, 1 ≤ rem →
      (∀ u, t ≤ u → u < t + rem → (runAttempt maxIter ifuel e props X u).isSome = true) →
      predictFrom maxIter ifuel e props X t rem =
        (match (List.range' t rem).find?
            (fun u => goodOpt (runAttempt maxIter ifuel e props X u)) with
         | some u => runAttempt maxIter ifuel e props X u
         | none => runAttempt maxIter ifuel e props X (t + rem - 1)) := by
  intro rem
  induction rem with
  | zero => intro t h1 _; exact absurd h1 (by omega)
  | succ rem ih =>
    intro t h1 hall
    have hsome := hall t (le_refl t) (by omega)
    obtain ⟨st, hst⟩ := Option.isSome_iff_exists.mp hsome
    have hgoodOpt : goodOpt (runAttempt maxIter ifuel e props X t) = goodBalance st.2 := by
      rw [hst]
      rfl
    rw [List.range'_succ]
    cases hg : goodBalance st.2 with
    | true =>
      rw [List.find?_cons_of_pos _ (by rw [hgoodOpt]; exact hg)]
      simp [predictFrom, hst, hg]
    | false =>
      rw [List.find?_cons_of_neg _ (by rw [hgoodOpt, hg]; simp)]
      cases rem with
      | zero =>
        simp [predictFrom, hst, hg, List.range']
      | succ rem' =>
        have IH := ih (t + 1) (by omega) (fun u hu1 hu2 => hall u (by omega) (by omega))
        have hL : predictFrom maxIter ifuel e props X t (rem' + 1 + 1) =
            predictFrom maxIter ifuel e props X (t + 1) (rem' + 1) := by
          conv_lhs => rw [predictFrom]
          rw [hst]
          simp [hg]
        have harith : t + 1 + (rem' + 1) - 1 = t + (rem' + 1 + 1) - 1 := by omega
        rw [hL, IH, harith]

/-- C9: the restart policy of `Kmeans.predict`.  Whenever every attempt
completes (no NaN, no init failure), the first attempt within the restart
budget `R` whose two cluster sizes differ by less than the balance
threshold (the code's constant 4, checked by `goodBalance`) is accepted
and its labelling returned; and if no attempt within the budget passes
the balance test, the labelling of the last attempt is returned rather
than failing. -/
theorem C9_restart_policy (maxIter ifuel : ℕ) (e : Frac) (props : ℕ → ℕ → ℕ × ℕ)
    (X : List (List Frac)) (R : ℕ) (hR : 1 ≤ R)
    (hall : ∀ t, t < R → (runAttempt maxIter ifuel e props X t).isSome = true) :
    (∀ t st, t < R → runAttempt maxIter ifuel e props X t = some st →
      goodBalance st.2 = true →
      (∀ u, u < t → goodOpt (runAttempt maxIter ifuel e props X u) = false) →
      predict maxIter ifuel R e props X = some (get_cluster_labels_new st.1 st.2 X)) ∧
    ((∀ u, u < R → goodOpt (runAttempt maxIter ifuel e props X u) = false) →
      ∀ st, runAttempt maxIter ifuel e props X (R - 1) = some st →
      predict maxIter ifuel R e props X = some (get_cluster_labels_new st.1 st.2 X)) := by
  have hchar := predictFrom_characterization maxIter ifuel e props X R 0 hR
    (fun u hu1 hu2 => hall u (by omega))
  constructor
  · intro t st ht hst hg hmin
    have hfind : (List.range' 0 R).find?
        (fun u => goodOpt (runAttempt maxIter ifuel e props X u)) = some t := by
      cases hf : (List.range' 0 R).find?
          (fun u => goodOpt (runAttempt maxIter ifuel e props X u)) with
      | none =>
        have hcontra := find?_range'_none R 0 hf t (by omega) (by omega)
        rw [hst] at hcontra
        simp [goodOpt, hg] at hcontra
      | some i =>
        obtain ⟨hpi, h0i, hiR, hmin'⟩ := find?_range'_some R 0 i hf
        have hit : i = t := by
          by_contra hne
          rcases lt_or_gt_of_ne hne with hlt | hgt
          · have hx := hmin i hlt
            rw [hx] at hpi
            exact absurd hpi (by simp)
          · have hx := hmin' t (by omega) hgt
            rw [hst] at hx
            simp [goodOpt, hg] at hx
        rw [hit]
    have hpf : predictFrom maxIter ifuel e props X 0 R =
        runAttempt maxIter ifuel e props X t := by
      rw [hchar, hfind]
    simp [predict, hpf, hst]
  · intro hAll st hst
    have hfind : (List.range' 0 R).find?
        (fun u => goodOpt (runAttempt maxIter ifuel e props X u)) = none := by
      cases hf : (List.range' 0 R).find?
          (fun u => goodOpt (runAttempt maxIter ifuel e props X u)) with
      | some i =>
        obtain ⟨hpi, h0i, hiR, _⟩ := find?_range'_some R 0 i hf
        have hx := hAll i (by omega)
        rw [hx] at hpi
        exact absurd hpi (by simp)
      | none => rfl
    have hpf : predictFrom maxIter ifuel e props X 0 R =
        runAttempt maxIter ifuel e props X (0 + R - 1) := by
      rw [hchar, hfind]
    have h0R : (0 : ℕ) + R - 1 = R - 1 := by omega
    rw [h0R] at hpf
    simp [predict, hpf, hst]

/-- Witness for C9: on the 3-point data set the first attempt converges
with cluster sizes 2 and 1 (difference below 4) and is accepted. -/
theorem C9_restart_policy_witness :
    predict 2000 1 1 varepsilonDefault wPropsA wX = some [0, 1, 0] := by
  have h := (C9_restart_policy 2000 1 varepsilonDefault wPropsA wX 1 (by decide)
      (by decide)).1 0
      ([[⟨0, 2⟩, ⟨10, 2⟩], [⟨10, 1⟩, ⟨0, 1⟩]], [[0, 2], [1]])
      (by decide) (by decide) (by decide) (fun u hu => absurd hu (by omega))
  exact h.trans (by decide)

end Classify

namespace Clustering

theorem ksList_getD {i k_max : ℕ} (hi : i < k_max) : (ksList k_max).getD i 0 = i + 1 := by
  rw [List.getD_eq_getElem?_getD, ksList, List.getElem?_map, List.getElem?_range hi]
  rfl

theorem map_ksList_getD (f : ℕ → Frac) {i k_max : ℕ} (hi : i < k_max) :
    ((ksList k_max).map f).getD i (Frac.ofInt 0) = f (i + 1) := by
  rw [List.getD_eq_getElem?_getD, List.getElem?_map, ksList, List.getElem?_map,
    List.getElem?_range hi]
  rfl

theorem gapList_eq (logO : Frac → Frac) (km : ℕ → List (List Frac) → List ℕ)
    (refs : ℕ → List (List Frac)) (X : List (List Frac)) (k_max B : ℕ) :
    gapList logO km refs X k_max B =
      (ksList k_max).map (fun k => gapAt logO km refs X B k) := by
  simp only [gapList, logWkbsTable, WkbsTable, logWksList, WksList, List.map_map]
  rw [List.zipWith_map_left, List.zipWith_map_right, List.zipWith_same]
  apply List.map_congr_left
  intro k _
  simp [gapAt, logRow, Function.comp_def, List.map_map]

theorem sdkList_eq (logO sqrtO : Frac → Frac) (km : ℕ → List (List Frac) → List ℕ)
    (refs : ℕ → List (List Frac)) (k_max B : ℕ) :
    sdkList logO sqrtO km refs k_max B =
      (ksList k_max).map (fun k => sdkAt logO sqrtO km refs B k) := by
  simp only [sdkList, logWkbsTable, WkbsTable, List.map_map]
  apply List.map_congr_left
  intro k _
  simp [sdkAt, logRow, Function.comp_def, List.map_map]

theorem find?_congr_mem {α : Type} {p q : α → Bool} :
    ∀ l : List α, (∀ a ∈ l, p a = q a) → l.find? p = l.find? q := by
  intro l
  induction l with
  | nil => intro _; rfl
  | cons a l ih =>
    intro h
    have ha := h a (List.mem_cons_self a l)
    by_cases hp : p a = true
    · rw [List.find?_cons_of_pos _ hp, List.find?_cons_of_pos _ (ha.symm.trans hp)]
    · have hpf : p a = false := by simp only [Bool.not_eq_true] at hp; exact hp
      rw [List.find?_cons_of_neg _ hp, List.find?_cons_of_neg _ (by rw [← ha]; exact hp)]
      exact ih (fun b hb => h b (List.mem_cons_of_mem a hb))

theorem optimal_k_gap_eq_find (logO sqrtO : Frac → Frac)
    (km : ℕ → List (List Frac) → List ℕ) (refs : ℕ → List (List Frac))
    (X : List (List Frac)) (k_max B : ℕ) (hk : 1 ≤ k_max) :
    optimal_k_gap logO sqrtO km refs X k_max B =
      (match (List.range' 0 (k_max - 1)).find?
          (fun i => gapCondb logO sqrtO km refs X B (i + 1)) with
       | some i => i + 1
       | none => k_max) := by
  unfold optimal_k_gap gapSelect
  rw [gapList_eq, sdkList_eq]
  have hlen : (ksList k_max).length = k_max := by simp [ksList]
  rw [hlen]
  have hcong : (List.range (k_max - 1)).find? (fun i =>
      Frac.leb
        (Frac.sub
          (((ksList k_max).map (fun k => gapAt logO km refs X B k)).getD (i + 1) (Frac.ofInt 0))
          (((ksList k_max).map (fun k => sdkAt logO sqrtO km refs B k)).getD (i + 1)
            (Frac.ofInt 0)))
        (((ksList k_max).map (fun k => gapAt logO km refs X B k)).getD i (Frac.ofInt 0))) =
      (List.range (k_max - 1)).find? (fun i => gapCondb logO sqrtO km refs X B (i + 1)) := by
    apply find?_congr_mem
    intro i hi
    rw [List.mem_range] at hi
    rw [map_ksList_getD _ (by omega), map_ksList_getD _ (by omega),
      map_ksList_getD _ (by omega)]
    rfl
  rw [hcong, List.range_eq_range']
  cases hf : (List.range' 0 (k_max - 1)).find?
      (fun i => gapCondb logO sqrtO km refs X B (i + 1)) with
  | some i =>
    obtain ⟨_, _, hiR, _⟩ := find?_range'_some _ _ _ hf
    dsimp only
    rw [ksList_getD (by omega)]
  | none =>
    dsimp only
    rw [ksList_getD (by omega)]
    omega

/-- C7: `optimal_k_gap` returns the smallest candidate `k` in
`1..k_max−1` satisfying `gap(k) ≥ gap(k+1) − s_{k+1}` (with `gap` and `s`
the mean / scaled standard deviation of the log reference dispersions as
in the claim, packaged in `gapAt`, `sdkAt` and `gapCondb`); if no
candidate in `1..k_max−1` satisfies the inequality it returns `k_max`. -/
theorem C7_gap_selection_rule (logO sqrtO : Frac → Frac)
    (km : ℕ → List (List Frac) → List ℕ) (refs : ℕ → List (List Frac))
    (X : List (List Frac)) (k_max B : ℕ) (hk : 1 ≤ k_max) :
    ((∃ k, 1 ≤ k ∧ k < k_max ∧ gapCondb logO sqrtO km refs X B k = true) →
      1 ≤ optimal_k_gap logO sqrtO km refs X k_max B ∧
      optimal_k_gap logO sqrtO km refs X k_max B < k_max ∧
      gapCondb logO sqrtO km refs X B (optimal_k_gap logO sqrtO km refs X k_max B) = true ∧
      ∀ j, 1 ≤ j → j < optimal_k_gap logO sqrtO km refs X k_max B →
        gapCondb logO sqrtO km refs X B j = false) ∧
    ((∀ k, 1 ≤ k → k < k_max → gapCondb logO sqrtO km refs X B k = false) →
      optimal_k_gap logO sqrtO km refs X k_max B = k_max) := by
  cases hf : (List.range' 0 (k_max - 1)).find?
      (fun i => gapCondb logO sqrtO km refs X B (i + 1)) with
  | some i =>
    obtain ⟨hpi, h0i, hiR, hmin⟩ := find?_range'_some _ _ _ hf
    have heq : optimal_k_gap logO sqrtO km refs X k_max B = i + 1 := by
      rw [optimal_k_gap_eq_find logO sqrtO km refs X k_max B hk, hf]
    rw [heq]
    constructor
    · intro _
      refine ⟨?_, ?_, hpi, ?_⟩
      · omega
      · omega
      · intro j hj1 hj2
        have hj : j - 1 < i := by omega
        have hx := hmin (j - 1) (by omega) hj
        have hjj : j - 1 + 1 = j := by omega
        rw [hjj] at hx
        exact hx
    · intro hAll
      have hx := hAll (i + 1) (by omega) (by omega)
      rw [hx] at hpi
      exact absurd hpi (by simp)
  | none =>
    have hnone := find?_range'_none _ _ hf
    have heq : optimal_k_gap logO sqrtO km refs X k_max B = k_max := by
      rw [optimal_k_gap_eq_find logO sqrtO km refs X k_max B hk, hf]
    rw [heq]
    constructor
    · rintro ⟨k, hk1, hk2, hc⟩
      have hx := hnone (k - 1) (by omega) (by omega)
      have hkk : k - 1 + 1 = k := by omega
      rw [hkk] at hx
      rw [hx] at hc
      exact absurd hc (by simp)
    · intro _
      rfl

/-- Witness for C7: constant oracles make every candidate satisfy the gap
condition, so the smallest candidate 1 is selected. -/
theorem C7_gap_selection_rule_witness :
    optimal_k_gap idOracle idOracle wKm wRefs wData 3 2 = 1 ∧
    gapCondb idOracle idOracle wKm wRefs wData 2 1 = true := by
  have h := (C7_gap_selection_rule idOracle idOracle wKm wRefs wData 3 2 (by decide)).1
    ⟨1, by decide, by decide, by decide⟩
  obtain ⟨h1, h2, h3, h4⟩ := h
  refine ⟨?_, by decide⟩
  by_contra hne
  have hr : 1 < optimal_k_gap idOracle idOracle wKm wRefs wData 3 2 := by omega
  have hx := h4 1 (by omega) hr
  exact absurd hx (by decide)

theorem gapSelect_range (gap sdk : List Frac) (k_max : ℕ) (hk : 1 ≤ k_max) :
    1 ≤ gapSelect (ksList k_max) gap sdk ∧ gapSelect (ksList k_max) gap sdk ≤ k_max := by
  unfold gapSelect
  have hlen : (ksList k_max).length = k_max := by simp [ksList]
  rw [hlen]
  cases hf : (List.range (k_max - 1)).find? (fun i =>
      Frac.leb (Frac.sub (gap.getD (i + 1) (Frac.ofInt 0)) (sdk.getD (i + 1) (Frac.ofInt 0)))
        (gap.getD i (Frac.ofInt 0))) with
  | some i =>
    have hmem := List.mem_of_find?_eq_some hf
    rw [List.mem_range] at hmem
    dsimp only
    rw [ksList_getD (by omega)]
    omega
  | none =>
    dsimp only
    rw [ksList_getD (by omega)]
    omega

/-- C10: for every nonempty input matrix and every `k_max ≥ 1`, the value
returned by `optimal_k_gap` lies in the candidate range `1..k_max`: the
loop either picks some `ks[i]` with `i < k_max − 1` or falls back to
`ks[-1] = k_max`. -/
theorem C10_k_in_range (logO sqrtO : Frac → Frac)
    (km : ℕ → List (List Frac) → List ℕ) (refs : ℕ → List (List Frac))
    (X : List (List Frac)) (k_max B : ℕ) (hk : 1 ≤ k_max) (_hX : 1 ≤ X.length) :
    1 ≤ optimal_k_gap logO sqrtO km refs X k_max B ∧
    optimal_k_gap logO sqrtO km refs X k_max B ≤ k_max := by
  unfold optimal_k_gap
  exact gapSelect_range _ _ k_max hk

/-- Witness for C10 at the one-row matrix, `k_max = 3`, `B = 2`. -/
theorem C10_k_in_range_witness :
    1 ≤ optimal_k_gap idOracle idOracle wKm wRefs wData 3 2 ∧
    optimal_k_gap idOracle idOracle wKm wRefs wData 3 2 ≤ 3 :=
  C10_k_in_range idOracle idOracle wKm wRefs wData 3 2 (by decide) (by decide)

end Clustering
